import Mathlib

/-!
Verification development for the AI-ImagePipeline repository
(src/utils/postprocessing.py and src/utils/preprocessing.py).

Python dictionaries whose keys come from JSON objects are embedded as
association lists `List (String × α)` (JSON objects and Python dicts
preserve insertion order and have no duplicate keys).  A JSON record is
an association list of string fields; `r.lookup k` models `r[k]` returning
`some v` on success, while the `Except` layer models the `KeyError` raised
on a missing key.  Fallible Python code is embedded in `Except`/`Option`.
-/

namespace ImagePipeline

/-- A JSON record: mapping from field names to string values. -/
abbrev Record := List (String × String)

/-- A summary mapping: object id to record. -/
abbrev Summary := List (String × Record)

/-- Model of Python dict key access `r[k]`: `KeyError k` when absent. -/
def getItem (r : Record) (k : String) : Except String String :=
  match r.lookup k with
  | some v => Except.ok v
  | none => Except.error k

/-- Model of Python dict `r.get(k, d)`: default on missing key. -/
def getDefault (r : Record) (k d : String) : String :=
  match r.lookup k with
  | some v => v
  | none => d

/-- Model of Python dict assignment `d[key] = value` on an insertion-ordered
dict: replace in place if the key is present, append otherwise. -/
def dictInsert (d : List (String × α)) (k : String) (v : α) : List (String × α) :=
  match d with
  | [] => [(k, v)]
  | (k0, v0) :: rest =>
    if k0 = k then (k, v) :: rest else (k0, v0) :: dictInsert rest k v

/-- Body of the `process_summaries` loop: builds the record with the two
fields `description` and `summary`, substituting the fixed defaults
(`data.get("description", "No description available")` etc.). -/
def summaryRecord (data : Record) : Record :=
  [("description", getDefault data "description" "No description available"),
   ("summary", getDefault data "summary" "No summary available")]

/-- Embedding of `process_summaries` after `json.load`: the loop
`for obj_id, data in summaries.items(): processed_summaries[obj_id] = {...}`
over the already-parsed JSON object. -/
def process_summaries (summaries : Summary) : Summary :=
  summaries.foldl (fun acc p => dictInsert acc p.1 (summaryRecord p.2)) []

/-- Body of the `clean_data` loop for one `(key, value)` item.  Mirrors the
Python condition `value["Identified Class"] != "Unknown" and
value["Extracted Text"] != ""` with short-circuit evaluation: the second
key access happens only when the first comparison is true. -/
def cleanStep (acc : Summary) (key : String) (value : Record) :
    Except String Summary := do
  let ic ← getItem value "Identified Class"
  if ic ≠ "Unknown" then
    let et ← getItem value "Extracted Text"
    if et ≠ "" then
      pure (dictInsert acc key value)
    else
      pure acc
  else
    pure acc

/-- Embedding of `clean_data`: folds `cleanStep` over the items of the
summary; a `KeyError` anywhere aborts the whole call. -/
def clean_data (summary : Summary) : Except String Summary :=
  summary.foldlM (fun acc p => cleanStep acc p.1 p.2) []

/-- The two dictionaries in scope during `clean_data`, modelled as mutable
state so that (non-)mutation of the input is expressible: `summary` is the
argument, `cleaned` the dict built by the loop.  An `err` field records a
raised `KeyError` (after which the loop body no longer runs). -/
structure CleanState where
  summary : Summary
  cleaned : Summary
  err : Option String
deriving Repr, DecidableEq

/-- One iteration of the `clean_data` loop acting on the full state: it may
read `value["Identified Class"]` / `value["Extracted Text"]` and write only
into `cleaned` (`cleaned_summary[key] = value`); nothing assigns to
`summary`. -/
def cleanStateStep (st : CleanState) (key : String) (value : Record) :
    CleanState :=
  match st.err with
  | some _ => st
  | none =>
    match value.lookup "Identified Class" with
    | none => { st with err := some "Identified Class" }
    | some ic =>
      if ic = "Unknown" then st
      else
        match value.lookup "Extracted Text" with
        | none => { st with err := some "Extracted Text" }
        | some et =>
          if et = "" then st
          else { st with cleaned := dictInsert st.cleaned key value }

/-- Stateful embedding of a whole `clean_data` call: iterate the loop body
over `summary.items()` starting from an empty `cleaned_summary`. -/
def clean_data_run (summary : Summary) : CleanState :=
  summary.foldl (fun st p => cleanStateStep st p.1 p.2)
    { summary := summary, cleaned := [], err := none }

/-! ## Image preprocessing (src/utils/preprocessing.py)

A decoded image is a rectangular grid of 3-channel pixels, one `Pixel`
being the triple of channel intensities as produced by the 8-bit decoders
(`cv2.imread` / `PIL ... .convert("RGB")`), so each component lies in
0..255.  Pixel arithmetic after `astype(np.float32) / 255.0` is embedded
in `ℚ` (the float values involved are exact small rationals scaled from
8-bit integers; rounding plays no role in the claimed bounds). -/

/-- One 3-channel pixel: channel intensities of a decoded 8-bit image. -/
abbrev Pixel := Nat × Nat × Nat

/-- A decoded image: a list of rows of pixels (height-width-channel). -/
structure RGBImage where
  pixels : List (List Pixel)
deriving Repr, DecidableEq

/-- Height of the image: number of rows. -/
def RGBImage.height (img : RGBImage) : Nat := img.pixels.length

/-- Width of the image: length of the first row. -/
def RGBImage.width (img : RGBImage) : Nat := (img.pixels.headD []).length

/-- An image as produced by an 8-bit decoder: every channel value is at
most 255. -/
def RGBImage.Valid (img : RGBImage) : Prop :=
  ∀ row ∈ img.pixels, ∀ px ∈ row,
    px.1 ≤ 255 ∧ px.2.1 ≤ 255 ∧ px.2.2 ≤ 255

/-- Resampling resize to `outH` rows and `outW` columns.  The library
interpolators (cv2 bilinear, PIL) only combine source pixels; the model
uses nearest-neighbour sampling, which has the same target shape and the
same value-range behaviour relied on by the code. -/
def resizeImage (img : RGBImage) (outH outW : Nat) : RGBImage :=
  ⟨(List.range outH).map (fun i =>
     (List.range outW).map (fun j =>
       (img.pixels.getD (i * img.height / outH) []).getD
         (j * img.width / outW) (0, 0, 0)))⟩

/-- Model of `cv2.resize(image, target_size)`: `target_size` is
`(width, height)` in the cv2 API, so the output has `target_size.2` rows
and `target_size.1` columns. -/
def cv2resize (img : RGBImage) (target_size : Nat × Nat) : RGBImage :=
  resizeImage img target_size.2 target_size.1

/-- Model of `image.astype(np.float32) / 255.0`: each channel value scaled
into `[0, 1]` as a rational. -/
def scaleTo255 (img : RGBImage) : List (List (ℚ × ℚ × ℚ)) :=
  img.pixels.map (fun row =>
    row.map (fun px => ((px.1 : ℚ) / 255, (px.2.1 : ℚ) / 255, (px.2.2 : ℚ) / 255)))

/-- Model of `np.transpose(image, (2, 0, 1))`: height-width-channel to
channel-height-width; the outer list has one entry per channel. -/
def hwcToChw (m : List (List (ℚ × ℚ × ℚ))) : List (List (List ℚ)) :=
  [m.map (fun row => row.map (fun px => px.1)),
   m.map (fun row => row.map (fun px => px.2.1)),
   m.map (fun row => row.map (fun px => px.2.2))]

/-- Embedding of `preprocess_segmented_object`.  The file system is the
oracle `fs`; `cv2.imread` returns `none` (a silent `None`) when the file
is unreadable or not a decodable image, and the subsequent
`cv2.resize(None, ...)` then raises, which the function does not catch. -/
def preprocess_segmented_object (fs : String → Option RGBImage)
    (image_path : String) (target_size : Nat × Nat) :
    Except String (List (List (List ℚ))) :=
  match fs image_path with
  | none => Except.error "cv2.error: !ssize.empty() in function resize"
  | some image =>
    Except.ok (hwcToChw (scaleTo255 (cv2resize image target_size)))

/-- Per-channel ImageNet means used by `transforms.Normalize`. -/
def imagenetMean : List ℚ := [485/1000, 456/1000, 406/1000]

/-- Per-channel ImageNet standard deviations used by
`transforms.Normalize`. -/
def imagenetStd : List ℚ := [229/1000, 224/1000, 225/1000]

/-- Model of `transforms.Normalize(mean, std)` on a channel-first tensor:
`(x - mean_c) / std_c` applied channelwise. -/
def normalizeTensor (t : List (List (List ℚ))) : List (List (List ℚ)) :=
  (t.zip (imagenetMean.zip imagenetStd)).map (fun p =>
    p.1.map (fun row => row.map (fun x => (x - p.2.1) / p.2.2)))

/-- Model of `transforms.ToTensor()`: values scaled by 1/255 into `[0,1]`
and laid out channel-first. -/
def toTensor (img : RGBImage) : List (List (List ℚ)) :=
  hwcToChw (scaleTo255 img)

/-- Embedding of `preprocess_image`.  `Image.open(...).convert("RGB")`
failing (missing file, decode error, unsupported format) is the oracle
returning `none`; the `except` clause catches it, prints, and the function
returns `None`.  On success the `Resize((224,224))`, `ToTensor()`,
`Normalize(...)` pipeline runs (torchvision `Resize` takes
`(height, width)`). -/
def preprocess_image (fs : String → Option RGBImage) (image_path : String) :
    Option (List (List (List ℚ))) :=
  match fs image_path with
  | none => none
  | some image =>
    some (normalizeTensor (toTensor (resizeImage image 224 224)))

/-! ## JSON serialization (model of `json.dump(..., indent=4)` /
`json.load`)

`save_cleaned_data` serializes a summary mapping with `json.dump(f,
indent=4)`; the round-trip claim reads the file back with a JSON parser.
Both directions are modelled on `List Char`.  The serializer reproduces
the layout of `json.dump` with `indent=4` (newlines, four-space indents,
`": "` after keys, `","` between items); strings are emitted with the
mandatory JSON escapes (`\"`, `\\` and `\u00XX` for control characters —
an encoding of exactly the same JSON string values the Python serializer
produces, so the round-trip property is unaffected by which legal escape
spelling is chosen).  The parser is a recursive-descent JSON-object
parser that accepts arbitrary interleaved whitespace, as `json.load`
does. -/

/-- The `{` character (written numerically). -/
def lbraceChar : Char := Char.ofNat 123

/-- The `}` character (written numerically). -/
def rbraceChar : Char := Char.ofNat 125

/-- Lower-case hexadecimal digit for `n < 16`. -/
def hexDigit (n : Nat) : Char :=
  if n < 10 then Char.ofNat (48 + n) else Char.ofNat (87 + n)

/-- Decode one hexadecimal digit. -/
def fromHexDigit (c : Char) : Option Nat :=
  if 48 ≤ c.toNat ∧ c.toNat ≤ 57 then some (c.toNat - 48)
  else if 97 ≤ c.toNat ∧ c.toNat ≤ 102 then some (c.toNat - 87)
  else if 65 ≤ c.toNat ∧ c.toNat ≤ 70 then some (c.toNat - 55)
  else none

/-- JSON escaping of one character inside a string literal. -/
def escapeChar (c : Char) : List Char :=
  if c = '"' then ['\\', '"']
  else if c = '\\' then ['\\', '\\']
  else if c.toNat < 32 then
    ['\\', 'u', '0', '0', hexDigit (c.toNat / 16), hexDigit (c.toNat % 16)]
  else [c]

/-- JSON escaping of a character sequence. -/
def escapeString (s : List Char) : List Char :=
  (s.map escapeChar).flatten

/-- A JSON string literal: opening quote, escaped body, closing quote. -/
def serializeStringJ (s : String) : List Char :=
  '"' :: escapeString s.data ++ ['"']

/-- Whitespace characters that `json.load` skips between tokens. -/
def isWsChar (c : Char) : Bool :=
  c = ' ' ∨ c = '\n' ∨ c = '\t' ∨ c = '\r'

/-- Skip leading JSON whitespace. -/
def skipWs : List Char → List Char
  | [] => []
  | c :: rest => if isWsChar c then skipWs rest else c :: rest

/-- Prepend a character to the string accumulated by the string parser. -/
def consParsed (c : Char) :
    Option (List Char × List Char) → Option (List Char × List Char)
  | some (s, r) => some (c :: s, r)
  | none => none

/-- Parse the body of a JSON string literal (after the opening quote) up
to and including the closing quote, decoding escapes. -/
def parseStringBody : List Char → Option (List Char × List Char)
  | [] => none
  | c :: rest =>
    if c = '"' then some ([], rest)
    else if c = '\\' then
      match rest with
      | [] => none
      | e :: rest2 =>
        if e = '"' then consParsed '"' (parseStringBody rest2)
        else if e = '\\' then consParsed '\\' (parseStringBody rest2)
        else if e = 'u' then
          match rest2 with
          | a :: b :: c2 :: d :: rest3 =>
            match fromHexDigit a, fromHexDigit b, fromHexDigit c2,
                fromHexDigit d with
            | some na, some nb, some nc, some nd =>
              consParsed
                (Char.ofNat (((na * 16 + nb) * 16 + nc) * 16 + nd))
                (parseStringBody rest3)
            | _, _, _, _ => none
          | _ => none
        else none
    else consParsed c (parseStringBody rest)

/-- Parse a JSON string literal, skipping leading whitespace. -/
def parseStringLit (l : List Char) : Option (String × List Char) :=
  match skipWs l with
  | [] => none
  | c :: rest =>
    if c = '"' then
      match parseStringBody rest with
      | some (s, r) => some (⟨s⟩, r)
      | none => none
    else none

/-- Parse the entries of a JSON object, positioned at the first key (the
opening brace and any whitespace already consumed, object known to be
nonempty).  `fuel` bounds the number of entries. -/
def parseEntriesAux (parseVal : List Char → Option (α × List Char)) :
    Nat → List Char → Option (List (String × α) × List Char)
  | 0, _ => none
  | Nat.succ fuel, l =>
    match parseStringLit l with
    | none => none
    | some (k, r1) =>
      match skipWs r1 with
      | [] => none
      | c2 :: r3 =>
        if c2 = ':' then
          match parseVal r3 with
          | none => none
          | some (v, r4) =>
            match skipWs r4 with
            | [] => none
            | c3 :: r5 =>
              if c3 = ',' then
                match parseEntriesAux parseVal fuel r5 with
                | some (es, r6) => some ((k, v) :: es, r6)
                | none => none
              else if c3 = rbraceChar then some ([(k, v)], r5)
              else none
        else none

/-- Parse a JSON object with values parsed by `parseVal`, skipping
leading whitespace. -/
def parseObject (parseVal : List Char → Option (α × List Char))
    (fuel : Nat) (l : List Char) :
    Option (List (String × α) × List Char) :=
  match skipWs l with
  | [] => none
  | c :: r1 =>
    if c = lbraceChar then
      match skipWs r1 with
      | [] => none
      | c2 :: r2 =>
        if c2 = rbraceChar then some ([], r2)
        else parseEntriesAux parseVal fuel (c2 :: r2)
    else none

/-- Four spaces of indentation per nesting level, as `indent=4`. -/
def indentChars (d : Nat) : List Char := List.replicate (4 * d) ' '

/-- Join pre-rendered entry lines with `",\n"`, as `json.dump` separators. -/
def sepJoin : List (List Char) → List Char
  | [] => []
  | [x] => x
  | x :: y :: rest => x ++ ',' :: '\n' :: sepJoin (y :: rest)

/-- Serialize a JSON object at nesting depth `d` in the `indent=4` layout
of `json.dump`: `{}` when empty, otherwise entries on their own indented
lines. -/
def serializeObj (d : Nat) (serVal : α → List Char)
    (items : List (String × α)) : List Char :=
  match items with
  | [] => [lbraceChar, rbraceChar]
  | _ :: _ =>
    lbraceChar :: '\n' ::
      (sepJoin (items.map (fun p =>
        indentChars (d + 1) ++ serializeStringJ p.1 ++ ':' :: ' ' :: serVal p.2))
      ++ '\n' :: indentChars d ++ [rbraceChar])

/-- Serialization of one summary record (an object of string fields) as it
appears nested at depth 1 inside the summary object. -/
def serializeRecord (r : Record) : List Char :=
  serializeObj 1 serializeStringJ r

/-- Serialization of a whole summary mapping: the file content written by
`json.dump(cleaned_summary, f, indent=4)`. -/
def serializeSummary (m : Summary) : List Char :=
  serializeObj 0 serializeRecord m

/-- Model of `json.load` on file content holding a summary-shaped JSON
object: parse the object and require only whitespace to follow. -/
def json_load (content : List Char) : Option Summary :=
  match parseObject (parseObject parseStringLit (content.length + 1))
      (content.length + 1) content with
  | some (m, r) => if skipWs r = [] then some m else none
  | none => none

/-- A file system for the save/load round trip: path to file content. -/
def FS : Type := String → Option (List Char)

/-- Embedding of `save_cleaned_data`: opens `output_path` for writing
(creating or truncating it) and writes the `indent=4` JSON serialization
of `cleaned_summary`; the confirmation `print` is not part of the data
contract. -/
def save_cleaned_data (cleaned_summary : Summary) (output_path : String)
    (fs : FS) : FS :=
  fun p => if p = output_path then some (serializeSummary cleaned_summary)
           else fs p

/-- Model of `os.path.join(input_directory, filename)`. -/
def joinPath (dir filename : String) : String := dir ++ "/" ++ filename

/-- Embedding of `preprocess_images_in_directory`.  `listing` is what
`os.listdir(input_directory)` returns; `isFile` is the `os.path.isfile`
oracle on full paths; the loop appends each non-`None` result of
`preprocess_image`. -/
def preprocess_images_in_directory (fs : String → Option RGBImage)
    (isFile : String → Bool) (input_directory : String)
    (listing : List String) : List (List (List (List ℚ))) :=
  listing.foldl (fun acc filename =>
    let file_path := joinPath input_directory filename
    if isFile file_path then
      match preprocess_image fs file_path with
      | some t => acc ++ [t]
      | none => acc
    else acc) []

/-! ## Helper lemmas -/

/-- The loop body of `clean_data` never writes to the `summary` dict. -/
lemma cleanStateStep_summary (st : CleanState) (k : String) (v : Record) :
    (cleanStateStep st k v).summary = st.summary := by
  unfold cleanStateStep
  repeat' split
  all_goals rfl

/-- Membership in a dict after insertion: the new pair or an old one. -/
lemma mem_dictInsert {d : List (String × α)} {k : String} {v : α} {q}
    (h : q ∈ dictInsert d k v) : q = (k, v) ∨ q ∈ d := by
  induction d with
  | nil => simpa [dictInsert] using h
  | cons p t ih =>
    obtain ⟨k0, v0⟩ := p
    unfold dictInsert at h
    by_cases hk : k0 = k
    · rw [if_pos hk] at h
      rcases List.mem_cons.mp h with h1 | h1
      · exact Or.inl h1
      · exact Or.inr (List.mem_cons_of_mem _ h1)
    · rw [if_neg hk] at h
      rcases List.mem_cons.mp h with h1 | h1
      · exact Or.inr (by simp [h1])
      · rcases ih h1 with h2 | h2
        · exact Or.inl h2
        · exact Or.inr (List.mem_cons_of_mem _ h2)

/-- The retention condition of `clean_data`: both fields present, class
not `"Unknown"`, text nonempty. -/
def goodRecord (r : Record) : Prop :=
  ∃ ic, r.lookup "Identified Class" = some ic ∧ ic ≠ "Unknown" ∧
    ∃ et, r.lookup "Extracted Text" = some et ∧ et ≠ ""

/-- Case analysis of a successful `clean_data` loop iteration: either the
item was skipped (`acc` unchanged) or it was retained and satisfies the
retention condition. -/
lemma cleanStep_ok_cases {acc : Summary} {k : String} {v : Record} {acc'}
    (h : cleanStep acc k v = Except.ok acc') :
    acc' = acc ∨ (acc' = dictInsert acc k v ∧ goodRecord v) := by
  unfold cleanStep at h
  cases hic : v.lookup "Identified Class" with
  | none => simp [getItem, hic, Bind.bind, Except.bind] at h
  | some ic =>
    simp only [getItem, hic, bind, Except.bind] at h
    by_cases hu : ic = "Unknown"
    · simp only [hu, ne_eq, not_true_eq_false, if_false, ite_false] at h
      simp only [pure, Except.pure, Except.ok.injEq] at h
      exact Or.inl h.symm
    · simp only [ne_eq, hu, not_false_eq_true, if_true, ite_true] at h
      cases het : v.lookup "Extracted Text" with
      | none => simp [getItem, het, Bind.bind, Except.bind] at h
      | some et =>
        simp only [getItem, het, bind, Except.bind] at h
        by_cases he : et = ""
        · simp only [he, ne_eq, not_true_eq_false, if_false, ite_false,
            pure, Except.pure, Except.ok.injEq] at h
          exact Or.inl h.symm
        · simp only [ne_eq, he, not_false_eq_true, if_true, ite_true,
            pure, Except.pure, Except.ok.injEq] at h
          exact Or.inr ⟨h.symm, ic, hic, hu, et, het, he⟩

/-- Invariant of a successful `clean_data` fold: every output pair was in
the accumulator already or is an input pair satisfying the retention
condition. -/
lemma clean_data_fold_mem :
    ∀ (s : Summary) (acc out : Summary),
      List.foldlM (fun acc p => cleanStep acc p.1 p.2) acc s = Except.ok out →
      ∀ q ∈ out, q ∈ acc ∨ (q ∈ s ∧ goodRecord q.2) := by
  intro s
  induction s with
  | nil =>
    intro acc out h q hq
    simp only [List.foldlM, pure, Except.pure, Except.ok.injEq] at h
    exact Or.inl (h ▸ hq)
  | cons p t ih =>
    intro acc out h q hq
    rw [List.foldlM_cons] at h
    cases hc : cleanStep acc p.1 p.2 with
    | error e => rw [hc] at h; simp [Bind.bind, Except.bind] at h
    | ok acc' =>
      rw [hc] at h
      simp only [bind, Except.bind] at h
      rcases ih acc' out h q hq with hmem | ⟨hmem, hg⟩
      · rcases cleanStep_ok_cases hc with he | ⟨he, hg⟩
        · exact Or.inl (he ▸ hmem)
        · rcases mem_dictInsert (he ▸ hmem) with hq' | hq'
          · refine Or.inr ⟨?_, ?_⟩
            · rw [hq']; exact List.mem_cons_self _ _
            · rw [hq']; exact hg
          · exact Or.inl hq'
      · exact Or.inr ⟨List.mem_cons_of_mem _ hmem, hg⟩

/-! ## Claims -/

/-- C8: `clean_data` does not mutate its input argument: after the loop
runs to completion (or stops on a `KeyError`), the `summary` dict equals
its initial value. -/
theorem clean_data_no_mutation (s : Summary) :
    (clean_data_run s).summary = s := by
  have h : ∀ (l : List (String × Record)) (st : CleanState),
      (l.foldl (fun st p => cleanStateStep st p.1 p.2) st).summary = st.summary := by
    intro l
    induction l with
    | nil => intro st; rfl
    | cons p t ih => intro st; rw [List.foldl_cons, ih, cleanStateStep_summary]
  unfold clean_data_run
  rw [h]

/-- C2: `preprocess_image` catches any image-loading failure (missing
file, decode error, unsupported format), reports it, and returns `None`
instead of propagating; in particular, on a nonexistent path it returns
`None` and does not raise (the embedding is a total function into
`Option`). -/
theorem preprocess_image_none_on_failure (fs : String → Option RGBImage)
    (p : String) (h : fs p = none) : preprocess_image fs p = none := by
  unfold preprocess_image
  rw [h]

/-- Witness for C2: a concrete nonexistent path yields `none`. -/
theorem preprocess_image_none_on_failure_witness :
    preprocess_image (fun _ => (none : Option RGBImage)) "missing.png" = none :=
  preprocess_image_none_on_failure (fun _ => none) "missing.png" rfl

/-- C6: on an unreadable or invalid image file, `preprocess_segmented_object`
propagates an error to the caller (`cv2.imread` returns `None` and
`cv2.resize` then raises); it does not return an absent result. -/
theorem preprocess_segmented_object_error (fs : String → Option RGBImage)
    (p : String) (ts : Nat × Nat) (h : fs p = none) :
    ∃ e, preprocess_segmented_object fs p ts = Except.error e := by
  refine ⟨"cv2.error: !ssize.empty() in function resize", ?_⟩
  unfold preprocess_segmented_object
  rw [h]

/-- Witness for C6: a concrete unreadable path yields an error. -/
theorem preprocess_segmented_object_error_witness :
    ∃ e, preprocess_segmented_object (fun _ => (none : Option RGBImage))
      "corrupt.bin" (224, 224) = Except.error e :=
  preprocess_segmented_object_error (fun _ => none) "corrupt.bin" (224, 224) rfl

/-- C1: the mapping returned by `clean_data` is a sub-mapping of its input
(every output key occurs among the input keys), and every retained record
has `Identified Class` different from `"Unknown"` and nonempty
`Extracted Text`. -/
theorem clean_data_subset_invariant (s out : Summary)
    (h : clean_data s = Except.ok out) :
    (∀ q ∈ out, q.1 ∈ s.map Prod.fst) ∧
    (∀ q ∈ out, ∃ ic, q.2.lookup "Identified Class" = some ic ∧
      ic ≠ "Unknown" ∧
      ∃ et, q.2.lookup "Extracted Text" = some et ∧ et ≠ "") := by
  constructor
  · intro q hq
    rcases clean_data_fold_mem s [] out h q hq with h0 | ⟨hm, _⟩
    · cases h0
    · exact List.mem_map_of_mem Prod.fst hm
  · intro q hq
    rcases clean_data_fold_mem s [] out h q hq with h0 | ⟨_, hg⟩
    · cases h0
    · exact hg

/-- Witness for C1: a concrete summary with one retained and one dropped
record. -/
theorem clean_data_subset_invariant_witness :
    (∀ q ∈ ([("a", [("Identified Class", "C"), ("Extracted Text", "t")])] : Summary),
      q.1 ∈ ([("a", [("Identified Class", "C"), ("Extracted Text", "t")]),
              ("b", [("Identified Class", "Unknown"), ("Extracted Text", "x")])] : Summary).map Prod.fst) ∧
    (∀ q ∈ ([("a", [("Identified Class", "C"), ("Extracted Text", "t")])] : Summary),
      ∃ ic, q.2.lookup "Identified Class" = some ic ∧ ic ≠ "Unknown" ∧
        ∃ et, q.2.lookup "Extracted Text" = some et ∧ et ≠ "") :=
  clean_data_subset_invariant
    [("a", [("Identified Class", "C"), ("Extracted Text", "t")]),
     ("b", [("Identified Class", "Unknown"), ("Extracted Text", "x")])]
    [("a", [("Identified Class", "C"), ("Extracted Text", "t")])]
    (by rfl)

/-- C10: every record retained by `clean_data` is the input record
unchanged: the output pair is literally a pair of the input mapping, with
all of its fields intact. -/
theorem clean_data_retained_unchanged (s out : Summary)
    (h : clean_data s = Except.ok out) : ∀ q ∈ out, q ∈ s := by
  intro q hq
  rcases clean_data_fold_mem s [] out h q hq with h0 | ⟨hm, _⟩
  · cases h0
  · exact hm

/-- Witness for C10: the retained record keeps its extra fields. -/
theorem clean_data_retained_unchanged_witness :
    ("a", [("Identified Class", "C"), ("Extracted Text", "t"),
        ("extra", "kept")])
      ∈ ([("a", [("Identified Class", "C"), ("Extracted Text", "t"),
        ("extra", "kept")])] : Summary) :=
  clean_data_retained_unchanged
    [("a", [("Identified Class", "C"), ("Extracted Text", "t"), ("extra", "kept")])]
    [("a", [("Identified Class", "C"), ("Extracted Text", "t"), ("extra", "kept")])]
    (by rfl) _ (List.mem_singleton.mpr rfl)

/-- C3 counterexample: a summary containing a record that lacks the key
`Extracted Text` on which `clean_data` nevertheless succeeds — the
short-circuit `and` never evaluates `value["Extracted Text"]` when
`Identified Class` equals `"Unknown"`, so no `KeyError` is raised. -/
theorem clean_data_missing_key_cex :
    (∃ q ∈ ([("a", [("Identified Class", "Unknown")])] : Summary),
      q.2.lookup "Extracted Text" = none) ∧
    clean_data [("a", [("Identified Class", "Unknown")])] = Except.ok [] := by
  constructor
  · exact ⟨("a", [("Identified Class", "Unknown")]), by simp, by rfl⟩
  · rfl

/-- A record on which the `clean_data` loop body raises a `KeyError`:
either `Identified Class` is absent, or it is present with a value other
than `"Unknown"` and `Extracted Text` is absent. -/
def badRecord (r : Record) : Prop :=
  r.lookup "Identified Class" = none ∨
    (∃ ic, r.lookup "Identified Class" = some ic ∧ ic ≠ "Unknown" ∧
      r.lookup "Extracted Text" = none)

/-- A loop iteration over a `badRecord` raises a `KeyError`. -/
lemma cleanStep_error_of_bad {acc : Summary} {k : String} {v : Record}
    (hb : badRecord v) : ∃ e, cleanStep acc k v = Except.error e := by
  unfold cleanStep
  rcases hb with hic | ⟨ic, hic, hu, het⟩
  · exact ⟨"Identified Class", by simp [getItem, hic, Bind.bind, Except.bind]⟩
  · refine ⟨"Extracted Text", ?_⟩
    simp [getItem, hic, het, Bind.bind, Except.bind, hu]

/-- A `clean_data` fold over a list containing a `badRecord` fails. -/
lemma clean_data_fold_error :
    ∀ (s : Summary) (acc : Summary), (∃ q ∈ s, badRecord q.2) →
      ∃ e, List.foldlM (fun acc p => cleanStep acc p.1 p.2) acc s = Except.error e := by
  intro s
  induction s with
  | nil => intro acc h; rcases h with ⟨q, hq, _⟩; cases hq
  | cons p t ih =>
    intro acc h
    rw [List.foldlM_cons]
    cases hc : cleanStep acc p.1 p.2 with
    | error e => exact ⟨e, by simp [Bind.bind, Except.bind]⟩
    | ok acc' =>
      rcases h with ⟨q, hq, hb⟩
      rcases List.mem_cons.mp hq with hq' | hq'
      · rcases @cleanStep_error_of_bad acc p.1 p.2 (hq' ▸ hb) with ⟨e, he⟩
        rw [hc] at he
        cases he
      · rcases ih acc' ⟨q, hq', hb⟩ with ⟨e, he⟩
        exact ⟨e, by simp [Bind.bind, Except.bind, he]⟩

/-- C3 amended: `clean_data` fails with a key-access error whenever some
record lacks `Identified Class`, or has `Identified Class` present and
not `"Unknown"` but lacks `Extracted Text` (if every key-lacking record
has `Identified Class = "Unknown"` the missing `Extracted Text` is never
read, by short-circuit evaluation); no default value is substituted in
this path. -/
theorem clean_data_missing_key_error (s : Summary)
    (h : ∃ q ∈ s, badRecord q.2) :
    ∃ e, clean_data s = Except.error e :=
  clean_data_fold_error s [] h

/-- Witness for the amended C3: a record with no fields at all makes
`clean_data` raise. -/
theorem clean_data_missing_key_error_witness :
    ∃ e, clean_data [("a", ([] : Record))] = Except.error e :=
  clean_data_missing_key_error [("a", [])]
    ⟨("a", []), List.mem_singleton.mpr rfl, Or.inl rfl⟩

/-- Generalized-accumulator form of the `preprocess_images_in_directory`
loop: it appends exactly the successful preprocessings of the regular
files. -/
lemma pid_fold (fs : String → Option RGBImage) (isF : String → Bool)
    (dir : String) :
    ∀ (listing : List String) (acc : List (List (List (List ℚ)))),
      listing.foldl (fun acc filename =>
        let file_path := joinPath dir filename
        if isF file_path then
          match preprocess_image fs file_path with
          | some t => acc ++ [t]
          | none => acc
        else acc) acc
      = acc ++ (listing.filter (fun n => isF (joinPath dir n))).filterMap
          (fun n => preprocess_image fs (joinPath dir n)) := by
  intro listing
  induction listing with
  | nil => intro acc; simp
  | cons n t ih =>
    intro acc
    rw [List.foldl_cons]
    by_cases hf : isF (joinPath dir n)
    · cases hp : preprocess_image fs (joinPath dir n) with
      | some u =>
        simp only [hf, if_true, hp, ih, List.filter_cons, List.filterMap_cons]
        simp [hp, hf, List.append_assoc]
      | none =>
        simp only [hf, if_true, hp, ih, List.filter_cons, List.filterMap_cons]
        try simp [hp, hf]
    · simp only [hf, if_false, ih, List.filter_cons]
      try simp [hf]

/-- C4: `preprocess_images_in_directory` applies `preprocess_image` to
each regular-file entry, skips non-regular-file entries, drops entries
for which `preprocess_image` returned `None`, and returns the sequence of
successes in listing order; in particular, a directory with two loadable
images and one corrupt file yields a sequence of length 2. -/
theorem preprocess_images_in_directory_spec (fs : String → Option RGBImage)
    (isF : String → Bool) (dir : String) (listing : List String) :
    preprocess_images_in_directory fs isF dir listing
      = (listing.filter (fun n => isF (joinPath dir n))).filterMap
          (fun n => preprocess_image fs (joinPath dir n)) ∧
    (∀ a b c ia ib, isF (joinPath dir a) = true → isF (joinPath dir b) = true →
      isF (joinPath dir c) = true → fs (joinPath dir a) = some ia →
      fs (joinPath dir b) = some ib → fs (joinPath dir c) = none →
      (preprocess_images_in_directory fs isF dir [a, b, c]).length = 2) := by
  have hfold := pid_fold fs isF dir
  constructor
  · unfold preprocess_images_in_directory
    simpa using hfold listing []
  · intro a b c ia ib ha hb hc hfa hfb hfc
    unfold preprocess_images_in_directory
    rw [hfold [a, b, c] []]
    simp [preprocess_image, ha, hb, hc, hfa, hfb, hfc]

/-- Witness for C4: two loadable images and one corrupt file give two
results. -/
theorem preprocess_images_in_directory_spec_witness :
    (preprocess_images_in_directory
      (fun p => if p = "dir/c" then none else some ⟨[[(1, 2, 3)]]⟩)
      (fun _ => true) "dir" ["a", "b", "c"]).length = 2 :=
  (preprocess_images_in_directory_spec
      (fun p => if p = "dir/c" then none else some ⟨[[(1, 2, 3)]]⟩)
      (fun _ => true) "dir" ["a", "b", "c"]).2
    "a" "b" "c" ⟨[[(1, 2, 3)]]⟩ ⟨[[(1, 2, 3)]]⟩ rfl rfl rfl
    (by decide) (by decide) (by decide)

/-- Inserting a fresh key into a dict appends it at the end. -/
lemma dictInsert_append {d : List (String × α)} {k : String} {v : α}
    (h : k ∉ d.map Prod.fst) : dictInsert d k v = d ++ [(k, v)] := by
  induction d with
  | nil => rfl
  | cons p t ih =>
    obtain ⟨k0, v0⟩ := p
    have hk : ¬ k0 = k := by
      intro e
      exact h (by simp [e])
    unfold dictInsert
    rw [if_neg hk, ih (by intro hm; exact h (by simp [hm]))]
    simp

/-- Generalized-accumulator form of the `process_summaries` loop: with
pairwise-distinct input keys (as `json.load` guarantees), the loop appends
one rebuilt record per input item, in order. -/
lemma process_fold :
    ∀ (s : Summary) (acc : Summary),
      (∀ x ∈ s.map Prod.fst, x ∉ acc.map Prod.fst) → (s.map Prod.fst).Nodup →
      s.foldl (fun acc p => dictInsert acc p.1 (summaryRecord p.2)) acc
        = acc ++ s.map (fun p => (p.1, summaryRecord p.2)) := by
  intro s
  induction s with
  | nil => intro acc _ _; simp
  | cons p t ih =>
    intro acc hfresh hnd
    rw [List.foldl_cons]
    have h1 : p.1 ∉ acc.map Prod.fst := hfresh p.1 (by simp)
    rw [dictInsert_append h1]
    simp only [List.map_cons, List.nodup_cons] at hnd
    rw [ih (acc ++ [(p.1, summaryRecord p.2)]) ?_ hnd.2]
    · simp
    · intro x hx
      have hx2 : x ∈ (p :: t).map Prod.fst := by
        simp only [List.map_cons, List.mem_cons]
        exact Or.inr hx
      intro hmem
      rw [List.map_append] at hmem
      rcases List.mem_append.mp hmem with h' | h'
      · exact hfresh x hx2 h'
      · have hxp : x = p.1 := by simpa using h'
        exact hnd.1 (hxp ▸ hx)

/-- C7: on a summary JSON object (whose keys are pairwise distinct, as
`json.load` produces), `process_summaries` returns a mapping with the
same key set, sending each id to a record with exactly the fields
`description` and `summary`, substituting the fixed default strings when
a field is absent; no record is filtered out. -/
theorem process_summaries_spec (s : Summary)
    (h : (s.map Prod.fst).Nodup) :
    process_summaries s = s.map (fun p => (p.1, summaryRecord p.2)) := by
  unfold process_summaries
  rw [process_fold s [] (by simp) h]
  simp

/-- Witness for C7: defaults are substituted for missing fields and every
record is kept. -/
theorem process_summaries_spec_witness :
    process_summaries [("a", [("description", "d")]), ("b", [])]
      = List.map (fun p => (p.1, summaryRecord p.2))
          [("a", [("description", "d")]), ("b", ([] : Record))] :=
  process_summaries_spec [("a", [("description", "d")]), ("b", [])] (by decide)

/-- An element read by `getD` is a list member or the default. -/
lemma getD_mem_or {β : Type} (l : List β) (n : Nat) (d : β) :
    l.getD n d ∈ l ∨ l.getD n d = d := by
  induction l generalizing n with
  | nil => simp
  | cons a t ih =>
    cases n with
    | zero => simp
    | succ m =>
      rw [List.getD_cons_succ]
      rcases ih m with h | h
      · exact Or.inl (List.mem_cons_of_mem _ h)
      · exact Or.inr h

/-- Every pixel of a resized valid image has channel values at most 255
(resampling only reads source pixels or the zero default). -/
lemma resizeImage_pixel_le (img : RGBImage) (hv : img.Valid)
    (outH outW : Nat) :
    ∀ row ∈ (resizeImage img outH outW).pixels, ∀ px ∈ row,
      px.1 ≤ 255 ∧ px.2.1 ≤ 255 ∧ px.2.2 ≤ 255 := by
  intro row hrow px hpx
  simp only [resizeImage, List.mem_map] at hrow
  obtain ⟨i, _, hrow'⟩ := hrow
  rw [← hrow'] at hpx
  simp only [List.mem_map] at hpx
  obtain ⟨j, _, hpx'⟩ := hpx
  rcases getD_mem_or img.pixels (i * img.height / outH) [] with hr | hr
  · rcases getD_mem_or (img.pixels.getD (i * img.height / outH) [])
        (j * img.width / outW) (0, 0, 0) with hp | hp
    · exact hpx' ▸ hv _ hr _ hp
    · rw [← hpx', hp]
      exact ⟨Nat.zero_le _, Nat.zero_le _, Nat.zero_le _⟩
  · rw [hr] at hpx'
    rcases getD_mem_or ([] : List Pixel) (j * img.width / outW) (0, 0, 0) with hp | hp
    · cases hp
    · rw [← hpx', hp]
      exact ⟨Nat.zero_le _, Nat.zero_le _, Nat.zero_le _⟩

/-- Scaling an 8-bit channel value by 1/255 lands in `[0, 1]`. -/
lemma scale_mem_unit {c : Nat} (h : c ≤ 255) :
    0 ≤ (c : ℚ) / 255 ∧ (c : ℚ) / 255 ≤ 1 := by
  constructor
  · positivity
  · rw [div_le_one (by norm_num)]
    exact_mod_cast h

/-- C5: on a readable valid image, `preprocess_segmented_object` succeeds
and returns a channel-first array of shape `(3, H, W)` with `H` and `W`
given by `target_size` (which is `(width, height)` in the cv2 call), every
value scaled by 1/255 into `[0, 1]` with no mean/std shift applied. -/
theorem preprocess_segmented_object_spec (fs : String → Option RGBImage)
    (image_path : String) (target_size : Nat × Nat) (img : RGBImage)
    (hfs : fs image_path = some img) (hv : img.Valid) :
    ∃ t, preprocess_segmented_object fs image_path target_size = Except.ok t ∧
      t.length = 3 ∧
      ∀ ch ∈ t, ch.length = target_size.2 ∧
        ∀ row ∈ ch, row.length = target_size.1 ∧
          ∀ x ∈ row, 0 ≤ x ∧ x ≤ 1 := by
  refine ⟨hwcToChw (scaleTo255 (cv2resize img target_size)), ?_, rfl, ?_⟩
  · unfold preprocess_segmented_object
    rw [hfs]
  · intro ch hch
    have hpx := resizeImage_pixel_le img hv target_size.2 target_size.1
    have hlen : (cv2resize img target_size).pixels.length = target_size.2 := by
      simp [cv2resize, resizeImage]
    have hrowlen : ∀ row ∈ (cv2resize img target_size).pixels,
        row.length = target_size.1 := by
      intro row hrow
      simp only [cv2resize, resizeImage, List.mem_map] at hrow
      obtain ⟨i, _, hrow'⟩ := hrow
      simp [← hrow']
    simp only [hwcToChw, scaleTo255, List.mem_cons, List.not_mem_nil,
      or_false] at hch
    rcases hch with hch | hch | hch
    all_goals
      subst hch
      rw [List.map_map, List.length_map]
      refine ⟨hlen, ?_⟩
      intro row hrow
      simp only [List.mem_map, Function.comp] at hrow
      obtain ⟨prow, hprow, hrow'⟩ := hrow
      subst hrow'
      rw [List.map_map, List.length_map]
      refine ⟨hrowlen prow hprow, ?_⟩
      intro x hx
      simp only [List.mem_map, Function.comp] at hx
      obtain ⟨px, hpxm, hx'⟩ := hx
      subst hx'
      first
      | exact scale_mem_unit ((hpx prow hprow px hpxm).1)
      | exact scale_mem_unit ((hpx prow hprow px hpxm).2.1)
      | exact scale_mem_unit ((hpx prow hprow px hpxm).2.2)

/-- Witness for C5: a concrete one-pixel image resized to 2×2. -/
theorem preprocess_segmented_object_spec_witness :
    ∃ t, preprocess_segmented_object (fun _ => some ⟨[[(7, 8, 9)]]⟩)
        "obj.png" (2, 2) = Except.ok t ∧
      t.length = 3 ∧
      ∀ ch ∈ t, ch.length = 2 ∧
        ∀ row ∈ ch, row.length = 2 ∧ ∀ x ∈ row, 0 ≤ x ∧ x ≤ 1 :=
  preprocess_segmented_object_spec (fun _ => some ⟨[[(7, 8, 9)]]⟩)
    "obj.png" (2, 2) ⟨[[(7, 8, 9)]]⟩ rfl (by unfold RGBImage.Valid; decide)

/-! ## Round-trip lemmas for the JSON model -/

/-- Skipping whitespace removes a leading whitespace character. -/
lemma skipWs_cons_of_ws {c : Char} (h : isWsChar c = true) (l : List Char) :
    skipWs (c :: l) = skipWs l := by
  simp [skipWs, h]

/-- Skipping whitespace keeps a leading non-whitespace character. -/
lemma skipWs_cons_of_not {c : Char} (h : isWsChar c = false) (l : List Char) :
    skipWs (c :: l) = c :: l := by
  simp [skipWs, h]

/-- Leading spaces are skipped. -/
lemma skipWs_replicate_space (n : Nat) (l : List Char) :
    skipWs (List.replicate n ' ' ++ l) = skipWs l := by
  induction n with
  | zero => rfl
  | succ m ih =>
    rw [List.replicate_succ, List.cons_append,
      skipWs_cons_of_ws (by decide), ih]

/-- Leading indentation is skipped. -/
lemma skipWs_indent (d : Nat) (l : List Char) :
    skipWs (indentChars d ++ l) = skipWs l :=
  skipWs_replicate_space (4 * d) l

/-- Hexadecimal digits decode their encodings. -/
lemma fromHexDigit_hexDigit : ∀ k < 16, fromHexDigit (hexDigit k) = some k := by
  decide

/-- Escaping distributes over cons. -/
lemma escapeString_cons (c : Char) (s : List Char) :
    escapeString (c :: s) = escapeChar c ++ escapeString s := by
  simp [escapeString]

/-- The string-body parser inverts the escaper: parsing the escaped body
followed by the closing quote returns the original characters and the
remaining input. -/
lemma parseStringBody_escape (s : List Char) (rest : List Char) :
    parseStringBody (escapeString s ++ '"' :: rest) = some (s, rest) := by
  induction s with
  | nil =>
    show parseStringBody (escapeString [] ++ '"' :: rest) = some ([], rest)
    rw [show escapeString [] = [] from rfl, List.nil_append]
    unfold parseStringBody
    simp
  | cons c s ih =>
    rw [escapeString_cons, List.append_assoc]
    by_cases h1 : c = '"'
    · subst h1
      rw [show escapeChar '"' = ['\\', '"'] from rfl]
      simp only [List.cons_append, List.nil_append]
      unfold parseStringBody
      simp [consParsed, ih]
    · by_cases h2 : c = '\\'
      · subst h2
        rw [show escapeChar '\\' = ['\\', '\\'] from rfl]
        simp only [List.cons_append, List.nil_append]
        unfold parseStringBody
        simp [consParsed, ih]
      · by_cases h3 : c.toNat < 32
        · have he : escapeChar c
              = ['\\', 'u', '0', '0', hexDigit (c.toNat / 16),
                 hexDigit (c.toNat % 16)] := by
            simp [escapeChar, h1, h2, h3]
          rw [he]
          simp only [List.cons_append, List.nil_append]
          have hd0 : fromHexDigit '0' = some 0 := by decide
          have hd1 : fromHexDigit (hexDigit (c.toNat / 16)) = some (c.toNat / 16) :=
            fromHexDigit_hexDigit _ (by omega)
          have hd2 : fromHexDigit (hexDigit (c.toNat % 16)) = some (c.toNat % 16) :=
            fromHexDigit_hexDigit _ (by omega)
          have harith : c.toNat / 16 * 16 + c.toNat % 16 = c.toNat := by omega
          unfold parseStringBody
          simp [hd0, hd1, hd2, harith, consParsed, ih, Char.ofNat_toNat]
        · have he : escapeChar c = [c] := by
            simp [escapeChar, h1, h2, h3]
          rw [he]
          simp only [List.cons_append, List.nil_append]
          unfold parseStringBody
          simp [h1, h2, consParsed, ih]

/-- The string parser inverts serialization of a string literal. -/
lemma parseStringLit_serialize (s : String) (rest : List Char) :
    parseStringLit (serializeStringJ s ++ rest) = some (s, rest) := by
  unfold serializeStringJ parseStringLit
  simp only [List.cons_append, List.append_assoc, List.nil_append]
  rw [skipWs_cons_of_not (by decide)]
  simp [parseStringBody_escape]

/-- The string parser ignores one leading whitespace character. -/
lemma parseStringLit_ws {c : Char} (h : isWsChar c = true) (l : List Char) :
    parseStringLit (c :: l) = parseStringLit l := by
  unfold parseStringLit
  rw [skipWs_cons_of_ws h]

/-- The entries parser ignores one leading whitespace character. -/
lemma parseEntriesAux_ws (parseVal : List Char → Option (α × List Char))
    (fuel : Nat) {c : Char} (h : isWsChar c = true) (l : List Char) :
    parseEntriesAux parseVal fuel (c :: l) = parseEntriesAux parseVal fuel l := by
  cases fuel with
  | zero => rfl
  | succ f =>
    unfold parseEntriesAux
    rw [parseStringLit_ws h]

/-- The entries parser ignores leading spaces. -/
lemma parseEntriesAux_replicate (parseVal : List Char → Option (α × List Char))
    (fuel n : Nat) (l : List Char) :
    parseEntriesAux parseVal fuel (List.replicate n ' ' ++ l)
      = parseEntriesAux parseVal fuel l := by
  induction n with
  | zero => rfl
  | succ m ih =>
    rw [List.replicate_succ, List.cons_append,
      parseEntriesAux_ws parseVal fuel (by decide), ih]

/-- The object parser ignores one leading whitespace character. -/
lemma parseObject_ws (parseVal : List Char → Option (α × List Char))
    (fuel : Nat) {c : Char} (h : isWsChar c = true) (l : List Char) :
    parseObject parseVal fuel (c :: l) = parseObject parseVal fuel l := by
  unfold parseObject
  rw [skipWs_cons_of_ws h]

/-- The serialized entries of a nonempty object, as seen by the parser
positioned at the first key (brace, newline and indentation already
consumed), ending with the closing brace and then `rest`. -/
def entriesFromKey (d : Nat) (serVal : α → List Char) :
    List (String × α) → List Char → List Char
  | [], rest => rest
  | [p], rest =>
    serializeStringJ p.1 ++ ':' :: ' ' :: serVal p.2
      ++ '\n' :: indentChars d ++ rbraceChar :: rest
  | p :: q :: t, rest =>
    serializeStringJ p.1 ++ ':' :: ' ' :: serVal p.2
      ++ ',' :: '\n' :: indentChars (d + 1) ++ entriesFromKey d serVal (q :: t) rest

/-- A serialized nonempty object decomposes into brace, newline,
indentation and the key-positioned entries. -/
lemma serializeObj_append (d : Nat) (serVal : α → List Char)
    (p : String × α) (items : List (String × α)) (rest : List Char) :
    serializeObj d serVal (p :: items) ++ rest
      = lbraceChar :: '\n' :: indentChars (d + 1)
          ++ entriesFromKey d serVal (p :: items) rest := by
  suffices h : ∀ (q : String × α) (its : List (String × α)),
      sepJoin ((q :: its).map (fun p =>
          indentChars (d + 1) ++ serializeStringJ p.1 ++ ':' :: ' ' :: serVal p.2))
        ++ '\n' :: indentChars d ++ rbraceChar :: rest
      = indentChars (d + 1) ++ entriesFromKey d serVal (q :: its) rest by
    have h2 := h p items
    unfold serializeObj
    simp only [List.cons_append, List.append_assoc] at *
    rw [← h2]
    simp
  intro q its
  induction its generalizing q with
  | nil =>
    unfold sepJoin entriesFromKey
    simp [List.append_assoc]
  | cons r t ih =>
    have hsep : sepJoin ((q :: r :: t).map (fun p =>
        indentChars (d + 1) ++ serializeStringJ p.1 ++ ':' :: ' ' :: serVal p.2))
        = (indentChars (d + 1) ++ serializeStringJ q.1 ++ ':' :: ' ' :: serVal q.2)
          ++ ',' :: '\n' :: sepJoin ((r :: t).map (fun p =>
            indentChars (d + 1) ++ serializeStringJ p.1 ++ ':' :: ' ' :: serVal p.2)) := by
      simp [sepJoin]
    rw [hsep]
    unfold entriesFromKey
    simp only [List.append_assoc, List.cons_append] at ih ⊢
    rw [ih r]

/-- The entries parser ignores leading indentation. -/
lemma parseEntriesAux_indent (parseVal : List Char → Option (α × List Char))
    (fuel d : Nat) (l : List Char) :
    parseEntriesAux parseVal fuel (indentChars d ++ l)
      = parseEntriesAux parseVal fuel l :=
  parseEntriesAux_replicate parseVal fuel (4 * d) l

/-- The entries parser inverts entry serialization: given a value parser
that inverts the value serializer on the listed values, parsing the
key-positioned serialized entries returns exactly those entries. -/
lemma parseEntriesAux_entriesFromKey
    (parseVal : List Char → Option (α × List Char)) (serVal : α → List Char)
    (d : Nat) :
    ∀ (items : List (String × α)) (fuel : Nat) (rest : List Char),
      items ≠ [] → items.length ≤ fuel →
      (∀ p ∈ items, ∀ r2, parseVal (serVal p.2 ++ r2) = some (p.2, r2)) →
      (∀ l, parseVal (' ' :: l) = parseVal l) →
      parseEntriesAux parseVal fuel (entriesFromKey d serVal items rest)
        = some (items, rest) := by
  intro items
  induction items with
  | nil => intro fuel rest hne _ _ _; exact absurd rfl hne
  | cons p t ih =>
    intro fuel rest _ hfuel hval hws
    cases fuel with
    | zero => simp at hfuel
    | succ f =>
      cases t with
      | nil =>
        unfold entriesFromKey parseEntriesAux
        simp only [List.append_assoc, List.cons_append]
        rw [parseStringLit_serialize]
        simp only [skipWs_cons_of_not (show isWsChar ':' = false by decide),
          if_true]
        rw [hws, hval p (List.mem_cons_self p []) _]
        simp only [skipWs_cons_of_ws (show isWsChar '\n' = true by decide),
          skipWs_indent,
          skipWs_cons_of_not (show isWsChar rbraceChar = false by decide)]
        simp
        intro hcm
        exact absurd hcm (by decide)
      | cons q t2 =>
        unfold entriesFromKey parseEntriesAux
        simp only [List.append_assoc, List.cons_append]
        rw [parseStringLit_serialize]
        simp only [skipWs_cons_of_not (show isWsChar ':' = false by decide),
          if_true]
        rw [hws, hval p (List.mem_cons_self p _) _]
        simp only [skipWs_cons_of_not (show isWsChar ',' = false by decide),
          if_true]
        rw [
          parseEntriesAux_ws parseVal f (show isWsChar '\n' = true by decide),
          parseEntriesAux_indent,
          ih f rest (by simp) (by simpa using hfuel)
            (fun r hr r2 => hval r (List.mem_cons_of_mem _ hr) r2) hws]

/-- The object parser inverts object serialization, for any nesting depth
and any fuel of at least the number of entries, provided the value parser
inverts the value serializer on the listed values. -/
lemma parseObject_serializeObj
    (parseVal : List Char → Option (α × List Char)) (serVal : α → List Char)
    (d : Nat) (items : List (String × α)) (fuel : Nat) (rest : List Char)
    (hfuel : items.length ≤ fuel)
    (hval : ∀ p ∈ items, ∀ r2, parseVal (serVal p.2 ++ r2) = some (p.2, r2))
    (hws : ∀ l, parseVal (' ' :: l) = parseVal l) :
    parseObject parseVal fuel (serializeObj d serVal items ++ rest)
      = some (items, rest) := by
  cases items with
  | nil =>
    show parseObject parseVal fuel (lbraceChar :: rbraceChar :: rest)
      = some ([], rest)
    unfold parseObject
    simp only [skipWs_cons_of_not (show isWsChar lbraceChar = false by decide),
      skipWs_cons_of_not (show isWsChar rbraceChar = false by decide)]
    simp
  | cons p t =>
    rw [serializeObj_append]
    have hek : ∃ tl, entriesFromKey d serVal (p :: t) rest = '"' :: tl := by
      cases t with
      | nil =>
        unfold entriesFromKey serializeStringJ
        simp only [List.cons_append, List.append_assoc]
        exact ⟨_, rfl⟩
      | cons q t2 =>
        unfold entriesFromKey serializeStringJ
        simp only [List.cons_append, List.append_assoc]
        exact ⟨_, rfl⟩
    obtain ⟨tl, htl⟩ := hek
    unfold parseObject
    simp only [List.cons_append,
      skipWs_cons_of_not (show isWsChar lbraceChar = false by decide)]
    simp only [skipWs_cons_of_ws (show isWsChar '\n' = true by decide),
      skipWs_indent, htl,
      skipWs_cons_of_not (show isWsChar '"' = false by decide)]
    simp only [if_true, if_neg (show ¬ ('"' : Char) = rbraceChar by decide)]
    rw [← htl]
    exact parseEntriesAux_entriesFromKey parseVal serVal d (p :: t) fuel rest
      (by simp) hfuel hval hws

/-- Joining entry lines with separators is at least as long as the sum of
the line lengths. -/
lemma sepJoin_length_ge :
    ∀ (xs : List (List Char)), (xs.map List.length).sum ≤ (sepJoin xs).length := by
  intro xs
  induction xs with
  | nil => simp [sepJoin]
  | cons x t ih =>
    cases t with
    | nil => simp [sepJoin]
    | cons y t2 =>
      unfold sepJoin
      simp only [List.map_cons, List.sum_cons, List.length_append,
        List.length_cons] at ih ⊢
      omega

/-- Indentation length. -/
lemma indentChars_length (n : Nat) : (indentChars n).length = 4 * n := by
  simp [indentChars]

/-- A serialized string literal has at least its two quotes. -/
lemma serializeStringJ_length (s : String) : 2 ≤ (serializeStringJ s).length := by
  unfold serializeStringJ
  simp

/-- Summing `1 + g x` adds the list length to the sum of `g`. -/
lemma sum_map_one_add {β : Type u_1} (g : β → Nat) :
    ∀ (l : List β), (l.map (fun x => 1 + g x)).sum = l.length + (l.map g).sum := by
  intro l
  induction l with
  | nil => simp
  | cons a t ih => simp [ih]; omega

/-- A serialized object is at least as long as its entry count plus the
total size of its serialized values (so the parsing fuel derived from the
file length suffices at every level). -/
lemma serializeObj_length_ge (d : Nat) (serVal : α → List Char)
    (items : List (String × α)) :
    items.length + (items.map (fun p => (serVal p.2).length)).sum
      ≤ (serializeObj d serVal items).length := by
  cases items with
  | nil => simp [serializeObj]
  | cons p t =>
    have hch : ∀ q : String × α, 1 + (serVal q.2).length
        ≤ (indentChars (d + 1) ++ serializeStringJ q.1
            ++ ':' :: ' ' :: serVal q.2).length := by
      intro q
      have h2 := serializeStringJ_length q.1
      simp only [List.length_append, List.length_cons, indentChars_length]
      omega
    have hs := List.sum_le_sum (l := p :: t)
      (f := fun q => 1 + (serVal q.2).length)
      (g := fun q => (indentChars (d + 1) ++ serializeStringJ q.1
        ++ ':' :: ' ' :: serVal q.2).length)
      (fun q _ => hch q)
    rw [sum_map_one_add] at hs
    have hj := sepJoin_length_ge ((p :: t).map (fun q =>
      indentChars (d + 1) ++ serializeStringJ q.1 ++ ':' :: ' ' :: serVal q.2))
    rw [List.map_map] at hj
    simp only [Function.comp_def] at hj
    have hlen : (serializeObj d serVal (p :: t)).length
        = 2 + (sepJoin ((p :: t).map (fun q =>
            indentChars (d + 1) ++ serializeStringJ q.1
              ++ ':' :: ' ' :: serVal q.2))).length + (1 + (4 * d + 1)) := by
      unfold serializeObj
      simp only [List.length_cons, List.length_append, List.length_nil,
        indentChars_length]
      omega
    omega

/-- C9: writing a summary mapping with `save_cleaned_data` and then
reading the written file back through the JSON parser yields a mapping
structurally identical to the one passed in. -/
theorem save_cleaned_data_roundtrip (m : Summary) (output_path : String)
    (fs : FS) :
    Option.bind (save_cleaned_data m output_path fs output_path) json_load
      = some m := by
  have hfile : save_cleaned_data m output_path fs output_path
      = some (serializeSummary m) := by
    unfold save_cleaned_data
    simp
  rw [hfile]
  show json_load (serializeSummary m) = some m
  have hN3 := serializeObj_length_ge 0 serializeRecord m
  have hss : serializeSummary m = serializeObj 0 serializeRecord m := rfl
  have houter : parseObject
      (parseObject parseStringLit ((serializeSummary m).length + 1))
      ((serializeSummary m).length + 1) (serializeSummary m ++ []) = some (m, []) := by
    apply parseObject_serializeObj
    · rw [hss]
      omega
    · intro p hp r2
      apply parseObject_serializeObj
      · have h1 : p.2.length
            + (p.2.map (fun q => (serializeStringJ q.2).length)).sum
            ≤ (serializeRecord p.2).length :=
          serializeObj_length_ge 1 serializeStringJ p.2
        have h2 : (serializeRecord p.2).length
            ≤ (m.map (fun p => (serializeRecord p.2).length)).sum :=
          List.single_le_sum (fun _ _ => Nat.zero_le _) _
            (List.mem_map_of_mem _ hp)
        rw [hss]
        omega
      · intro q hq r3
        exact parseStringLit_serialize q.2 r3
      · intro l
        exact parseStringLit_ws (by decide) l
    · intro l
      exact parseObject_ws _ _ (by decide) l
  rw [List.append_nil] at houter
  unfold json_load
  rw [houter]
  simp [skipWs]

end ImagePipeline
